import Mathlib

/-!
Verification development for the hippius-sdk-js encryption and resilience
layer.

Bytes are modelled as natural numbers and byte buffers (`Buffer`) as
`List Nat`; JavaScript strings that the source immediately converts to
bytes (`Buffer.from(s, 'utf-8')`) are modelled by their byte sequences.
The AES-256 block primitive and the PBKDF2 key-derivation function are
supplied to the source code by the external Node `crypto` module; they are
modelled as an explicit parameter (`CryptoPrims`), while the repository's
own composition — CBC chaining, PKCS#7 padding, envelope layout, error
wrapping, retry logic — is embedded directly from the source.
-/

namespace Hippius

/-- The external Node `crypto` primitives used by the source:
a 16-byte block cipher keyed by a 32-byte key (`aes-256-cbc`'s block
primitive) and a password-based key-derivation function
(`crypto.pbkdf2Sync`). -/
structure CryptoPrims where
  encB : List Nat → List Nat → List Nat
  decB : List Nat → List Nat → List Nat
  pbkdf2 : List Nat → List Nat → Nat → Nat → List Nat

/-- Well-formedness of the block primitive: on 16-byte blocks under a
32-byte key, encryption produces a 16-byte block and decryption inverts
it. Real AES-256 satisfies this. -/
def GoodCipher (P : CryptoPrims) : Prop :=
  ∀ k b, k.length = 32 → b.length = 16 →
    (P.encB k b).length = 16 ∧ P.decB k (P.encB k b) = b

/-- Well-formedness of the KDF: the output has the requested length.
`crypto.pbkdf2Sync(password, salt, iterations, keylen, 'sha256')`
satisfies this. -/
def GoodKDF (P : CryptoPrims) : Prop :=
  ∀ pw salt it len, (P.pbkdf2 pw salt it len).length = len

/-- Byte-wise XOR of two equal-length buffers (the CBC chaining step). -/
def xorBytes (a b : List Nat) : List Nat :=
  List.zipWith Nat.xor a b

/-- PKCS#7 padding as applied by `cipher.update`/`cipher.final` for
`aes-256-cbc`: append `p` copies of `p` where `p = 16 - len % 16`. -/
def pkcs7pad (data : List Nat) : List Nat :=
  let p := 16 - data.length % 16
  data ++ List.replicate p p

/-- PKCS#7 unpadding as checked by `decipher.final`: the last byte `p`
must lie in `1..16` and the last `p` bytes must all equal `p`; otherwise
the padding is invalid (OpenSSL's `bad decrypt`). -/
def pkcs7unpad (data : List Nat) : Option (List Nat) :=
  match data.getLast? with
  | none => none
  | some p =>
    if 1 ≤ p ∧ p ≤ 16 ∧ p ≤ data.length ∧
        (data.drop (data.length - p)).all (· = p)
    then some (data.take (data.length - p))
    else none

/-- Split a buffer into consecutive 16-byte blocks (structural recursion
on a fuel bounded by the buffer length, so that it computes by kernel
reduction). -/
def toBlocksAux : Nat → List Nat → List (List Nat)
  | 0, _ => []
  | fuel + 1, l => if l = [] then [] else l.take 16 :: toBlocksAux fuel (l.drop 16)

/-- Split a buffer into consecutive 16-byte blocks. -/
def toBlocks (l : List Nat) : List (List Nat) :=
  toBlocksAux l.length l

/-- CBC encryption over a block list: each block is XORed with the
previous ciphertext block (initially the IV) and then encrypted. -/
def cbcEncryptBlocks (P : CryptoPrims) (key prev : List Nat) :
    List (List Nat) → List (List Nat)
  | [] => []
  | b :: bs =>
    let c := P.encB key (xorBytes b prev)
    c :: cbcEncryptBlocks P key c bs

/-- CBC decryption over a block list. -/
def cbcDecryptBlocks (P : CryptoPrims) (key prev : List Nat) :
    List (List Nat) → List (List Nat)
  | [] => []
  | c :: cs =>
    xorBytes (P.decB key c) prev :: cbcDecryptBlocks P key c cs

/-- CBC-encrypt a (padded) buffer. -/
def cbcEncrypt (P : CryptoPrims) (key iv data : List Nat) : List Nat :=
  (cbcEncryptBlocks P key iv (toBlocks data)).flatten

/-- CBC-decrypt a buffer. -/
def cbcDecrypt (P : CryptoPrims) (key iv data : List Nat) : List Nat :=
  (cbcDecryptBlocks P key iv (toBlocks data)).flatten

/-- The distinct failures Node's `crypto` decipher can raise inside the
`try` blocks of the source: `createDecipheriv` rejects an IV that is not
16 bytes; `update`/`final` reject ciphertext that is not a whole number
of blocks; `final` rejects invalid PKCS#7 padding (this is also the case
of a wrong key, whose decryption is garbage). The source interpolates
the underlying error into its rethrown message, so which failure
occurred remains caller-visible. -/
inductive NodeCryptoErr
  | invalidIV
  | wrongFinalBlockLength
  | badDecrypt
deriving DecidableEq, Repr

/-- One run of `createDecipheriv` + `update` + `final` on ciphertext
`data` with the given key and IV, as performed inside the `try` blocks of
`IPFSClient.decryptData` and `getSeedPhrase`. `final()` raises the
wrong-final-block-length error both when a partial block remains
buffered (`data.length % 16 ≠ 0`) and when no final block was buffered
at all (`data.length = 0`, empty ciphertext with padding enabled); the
bad-decrypt padding failure can only arise on a nonempty whole number
of blocks. -/
def decipherRun (P : CryptoPrims) (key iv data : List Nat) :
    Except NodeCryptoErr (List Nat) :=
  if iv.length ≠ 16 then .error .invalidIV
  else if data.length % 16 ≠ 0 ∨ data.length = 0 then
    .error .wrongFinalBlockLength
  else
    match pkcs7unpad (cbcDecrypt P key iv data) with
    | some p => .ok p
    | none => .error .badDecrypt

/-- Errors thrown by `IPFSClient.encryptData` / `decryptData`:
`encryptionUnavailable` is the "Encryption is not available" guard;
`decryptionFailed inner` is the catch-all rethrow in `decryptData`,
whose message is "Decryption failed: ${error}. Incorrect key or
corrupted data?" — the underlying error `inner` is interpolated into the
message, so it is carried here. -/
inductive IpfsError
  | encryptionUnavailable
  | decryptionFailed (inner : NodeCryptoErr)
deriving DecidableEq, Repr

/-- The encryption-relevant state of an `IPFSClient`. -/
structure IPFSClient where
  encryptionKey : Option (List Nat)
  encryptionAvailable : Bool
deriving DecidableEq, Repr

/-- The encryption-relevant part of the `IPFSClient` constructor: the
effective key (parameter or config fallback) is stored, and
`encryptionAvailable = encryptionKey !== null && encryptionKey.length
=== 32`. The `crypto.getCiphers()` environment probe (which never fails
when Node's crypto module is present) is not modelled. -/
def mkIPFSClient (encryptionKey : Option (List Nat)) : IPFSClient :=
  { encryptionKey := encryptionKey
    encryptionAvailable :=
      match encryptionKey with
      | some k => k.length == 32
      | none => false }

/-- Embeds `IPFSClient.encryptData`: guard on `encryptionAvailable`, generate a
random 16-byte IV (modelled as the explicit argument `iv`, the draw of
`crypto.randomBytes(16)`), AES-256-CBC encrypt with PKCS#7 padding, and
return `iv || ciphertext`. -/
def encryptData (P : CryptoPrims) (c : IPFSClient) (iv data : List Nat) :
    Except IpfsError (List Nat) :=
  if !c.encryptionAvailable then .error .encryptionUnavailable
  else .ok (iv ++ cbcEncrypt P (c.encryptionKey.getD []) iv (pkcs7pad data))

/-- Embeds `IPFSClient.decryptData`: guard on `encryptionAvailable`, split the
first 16 bytes as IV (`slice(0,16)` / `slice(16)`), run the decipher,
and wrap any failure in the single generic rethrow. -/
def decryptData (P : CryptoPrims) (c : IPFSClient) (encryptedData : List Nat) :
    Except IpfsError (List Nat) :=
  if !c.encryptionAvailable then .error .encryptionUnavailable
  else
    let iv := encryptedData.take 16
    let data := encryptedData.drop 16
    match decipherRun P (c.encryptionKey.getD []) iv data with
    | .ok p => .ok p
    | .error e => .error (.decryptionFailed e)

/-- Errors thrown by `setSeedPhrase` / `getSeedPhrase` in `src/config`.
`decryptionFailed` is the fixed-text rethrow "Failed to decrypt seed
phrase: Invalid password or corrupted data" (no interpolation there). -/
inductive ConfigError
  | passwordRequiredForEncrypt
  | passwordRequiredForDecrypt
  | decryptionFailed
deriving DecidableEq, Repr

/-- The per-account seed-phrase record stored in the config file:
`seed_phrase` (for an encoded record, the raw bytes that the stored
base64 string decodes to — base64 encode/decode by Node's `Buffer` is a
byte-faithful bijection and is not modelled) and the
`seed_phrase_encoded` flag. -/
structure SeedRecord where
  seed_phrase : List Nat
  seed_phrase_encoded : Bool
deriving DecidableEq, Repr

/-- The cryptographic core of `setSeedPhrase`: the record it writes for
account `name`. `salt` and `iv` are the explicit draws of the two
`crypto.randomBytes(16)` calls; `password` is `null` (`none`) or a
string, and JavaScript's `if (!password)` treats both `null` and the
empty string as missing. -/
def setSeedPhraseRecord (P : CryptoPrims) (salt iv : List Nat)
    (seedPhrase : List Nat) (encode : Bool) (password : Option (List Nat)) :
    Except ConfigError SeedRecord :=
  if encode then
    match password with
    | none => .error .passwordRequiredForEncrypt
    | some [] => .error .passwordRequiredForEncrypt
    | some pw =>
      let key := P.pbkdf2 pw salt 100000 32
      let encrypted := cbcEncrypt P key iv (pkcs7pad seedPhrase)
      .ok ⟨salt ++ iv ++ encrypted, true⟩
  else .ok ⟨seedPhrase, false⟩

/-- Observable steps inside `getSeedPhrase`'s decryption path, used to
state when PBKDF2 key derivation actually runs. -/
inductive ConfigEvent
  | pbkdf2Derive
deriving DecidableEq, Repr

/-- The per-record core of `getSeedPhrase`: plaintext records are
returned as stored; encoded records require a password; the stored
bytes are split as `salt = slice(0,16)`, `iv = slice(16,32)`,
`encrypted = slice(32)`, the key is re-derived with
`pbkdf2Sync(password, salt, 100000, 32, 'sha256')`, and the decipher is
run; any failure in the `try` block becomes the one generic
`decryptionFailed` error. The second component records the events that
occurred (key derivation precedes `createDecipheriv` in the source, so
it runs even when the decipher construction then fails). -/
def getSeedPhraseFromRecord (P : CryptoPrims) (record : SeedRecord)
    (password : Option (List Nat)) :
    Except ConfigError (List Nat) × List ConfigEvent :=
  if !record.seed_phrase_encoded then (.ok record.seed_phrase, [])
  else
    match password with
    | none => (.error .passwordRequiredForDecrypt, [])
    | some [] => (.error .passwordRequiredForDecrypt, [])
    | some pw =>
      let encryptedData := record.seed_phrase
      let salt := encryptedData.take 16
      let iv := (encryptedData.drop 16).take 16
      let encrypted := encryptedData.drop 32
      let key := P.pbkdf2 pw salt 100000 32
      match decipherRun P key iv encrypted with
      | .ok dec => (.ok dec, [.pbkdf2Derive])
      | .error _ => (.error .decryptionFailed, [.pbkdf2Derive])

/-- The observable outcome of one `retryWithBackoff` call: the settled
promise (`Except`), the number of times the wrapped operation was
invoked, and the list of backoff waits (in milliseconds) that were
performed, in order. The rejection value is `Option ε` because the
source rejects with `lastError`, which is still `null` when the loop
body never ran. -/
structure RetryOutcome (ε α : Type) where
  result : Except (Option ε) α
  calls : Nat
  waits : List Nat

/-- The `for (let attempt = 0; attempt < maxRetries; attempt++)` loop of
`retryWithBackoff`. The wrapped async operation is modelled as a
function from the attempt index to its result. `maxRetries` is an
integer (JavaScript numbers admit non-positive values, claim C10's
subject). On failure of the last allowed attempt (`attempt ===
maxRetries - 1`) the loop breaks with no wait; otherwise it waits
`2^attempt * 1000` ms and retries. -/
def retryLoop {ε α : Type} (op : Nat → Except ε α) (maxRetries : Int)
    (attempt : Int) (lastError : Option ε) (calls : Nat) (waits : List Nat) :
    RetryOutcome ε α :=
  if h : attempt < maxRetries then
    match op attempt.toNat with
    | .ok v => ⟨.ok v, calls + 1, waits⟩
    | .error e =>
      if attempt = maxRetries - 1 then ⟨.error (some e), calls + 1, waits⟩
      else
        retryLoop op maxRetries (attempt + 1) (some e) (calls + 1)
          (waits ++ [2 ^ attempt.toNat * 1000])
  else ⟨.error lastError, calls, waits⟩
termination_by (maxRetries - attempt).toNat
decreasing_by omega

/-- Embeds `retryWithBackoff(fn, maxRetries)`. -/
def retryWithBackoff {ε α : Type} (op : Nat → Except ε α)
    (maxRetries : Int) : RetryOutcome ε α :=
  retryLoop op maxRetries 0 none 0 []

/-! ### Helper lemmas: padding, chunking and CBC round trips -/

lemma length_xorBytes (a b : List Nat) :
    (xorBytes a b).length = min a.length b.length := by
  simp [xorBytes]

lemma xorBytes_cancel (b c : List Nat) (h : b.length = c.length) :
    xorBytes (xorBytes b c) c = b := by
  induction b generalizing c with
  | nil => simp [xorBytes]
  | cons x xs ih =>
    cases c with
    | nil => simp at h
    | cons y ys =>
      simp only [xorBytes, List.zipWith_cons_cons]
      have hxy : Nat.xor (Nat.xor x y) y = x := Nat.xor_cancel_right y x
      rw [hxy]
      have hlen : xs.length = ys.length := by
        simp only [List.length_cons] at h; omega
      exact congrArg (x :: ·) (ih ys hlen)

lemma pkcs7pad_length_mod (d : List Nat) : (pkcs7pad d).length % 16 = 0 := by
  simp only [pkcs7pad, List.length_append, List.length_replicate]
  omega

lemma pkcs7unpad_append_replicate (d : List Nat) (p : Nat) (hp1 : 1 ≤ p)
    (hp16 : p ≤ 16) : pkcs7unpad (d ++ List.replicate p p) = some d := by
  have hrep : List.replicate p p ≠ [] := by
    intro hc
    have := congrArg List.length hc
    simp at this
    omega
  have hlast : (d ++ List.replicate p p).getLast? = some p := by
    rw [List.getLast?_append_of_ne_nil _ hrep]
    cases p with
    | zero => omega
    | succ n => rw [List.replicate_succ', List.getLast?_append_of_ne_nil] <;> simp
  have hlen : (d ++ List.replicate p p).length = d.length + p := by simp
  have hsub : d.length + p - p = d.length := by omega
  have hall : (List.replicate p p).all (· = p) = true := by
    simp [List.all_eq_true, List.mem_replicate]
  have hple : p ≤ d.length + p := by omega
  simp only [pkcs7unpad, hlast, hlen, hsub, List.drop_left, List.take_left]
  simp [hp1, hp16, hple, hall]

lemma pkcs7unpad_pkcs7pad (d : List Nat) : pkcs7unpad (pkcs7pad d) = some d :=
  pkcs7unpad_append_replicate d (16 - d.length % 16) (by omega) (by omega)

lemma toBlocksAux_congr (fuel fuel' : Nat) (l : List Nat)
    (h : l.length ≤ fuel) (h' : l.length ≤ fuel') :
    toBlocksAux fuel l = toBlocksAux fuel' l := by
  induction fuel generalizing fuel' l with
  | zero =>
    have hl : l = [] := List.length_eq_zero.mp (by omega)
    subst hl
    cases fuel' <;> simp [toBlocksAux]
  | succ n ih =>
    cases fuel' with
    | zero =>
      have hl : l = [] := List.length_eq_zero.mp (by omega)
      subst hl
      simp [toBlocksAux]
    | succ m =>
      by_cases hl : l = []
      · simp [toBlocksAux, hl]
      · have hpos : 0 < l.length := List.length_pos.mpr hl
        simp only [toBlocksAux, hl, if_false]
        rw [ih m (l.drop 16) (by simp; omega) (by simp; omega)]

lemma toBlocks_nil : toBlocks [] = [] := by
  simp [toBlocks, toBlocksAux]

lemma toBlocks_ne_nil (l : List Nat) (h : l ≠ []) :
    toBlocks l = l.take 16 :: toBlocks (l.drop 16) := by
  have hpos : 0 < l.length := List.length_pos.mpr h
  rw [toBlocks, toBlocks]
  cases hn : l.length with
  | zero => omega
  | succ n =>
    simp only [toBlocksAux, h, if_false]
    rw [toBlocksAux_congr n (l.drop 16).length (l.drop 16) (by simp; omega) le_rfl]

lemma toBlocks_len16_aux (n : Nat) : ∀ l : List Nat, l.length = n →
    l.length % 16 = 0 → ∀ b ∈ toBlocks l, b.length = 16 := by
  induction n using Nat.strong_induction_on with
  | _ n ih =>
    intro l hn hmod b hb
    by_cases hl : l = []
    · subst hl; rw [toBlocks_nil] at hb; simp at hb
    · have hpos : 0 < l.length := List.length_pos.mpr hl
      have h16 : 16 ≤ l.length := by omega
      rw [toBlocks_ne_nil l hl] at hb
      rcases List.mem_cons.mp hb with hb | hb
      · subst hb; simp [List.length_take]; omega
      · exact ih (l.drop 16).length (by simp; omega) (l.drop 16) rfl
          (by simp [List.length_drop]; omega) b hb

lemma toBlocks_len16 (l : List Nat) :
    l.length % 16 = 0 → ∀ b ∈ toBlocks l, b.length = 16 :=
  toBlocks_len16_aux l.length l rfl

lemma flatten_toBlocks_aux (n : Nat) : ∀ l : List Nat, l.length = n →
    (toBlocks l).flatten = l := by
  induction n using Nat.strong_induction_on with
  | _ n ih =>
    intro l hn
    by_cases hl : l = []
    · subst hl; rw [toBlocks_nil]; simp
    · have hpos : 0 < l.length := List.length_pos.mpr hl
      rw [toBlocks_ne_nil l hl, List.flatten_cons,
        ih (l.drop 16).length (by simp; omega) (l.drop 16) rfl,
        List.take_append_drop]

lemma flatten_toBlocks (l : List Nat) : (toBlocks l).flatten = l :=
  flatten_toBlocks_aux l.length l rfl

lemma toBlocks_flatten (bs : List (List Nat)) (h : ∀ b ∈ bs, b.length = 16) :
    toBlocks bs.flatten = bs := by
  induction bs with
  | nil => simp [toBlocks_nil]
  | cons b bs ih =>
    have hb : b.length = 16 := h b (by simp)
    have hbne : b ++ bs.flatten ≠ [] := by
      intro hc
      have := congrArg List.length hc
      simp [hb] at this
    rw [List.flatten_cons, toBlocks_ne_nil _ hbne, List.take_left' hb,
      List.drop_left' hb, ih (fun x hx => h x (by simp [hx]))]

lemma flatten_length_16 (bs : List (List Nat)) (h : ∀ b ∈ bs, b.length = 16) :
    bs.flatten.length = 16 * bs.length := by
  induction bs with
  | nil => simp
  | cons b bs ih =>
    simp only [List.flatten_cons, List.length_append, List.length_cons]
    rw [h b (by simp), ih (fun x hx => h x (by simp [hx]))]
    ring

lemma cbcEncryptBlocks_len16 (P : CryptoPrims) (hP : GoodCipher P)
    (key : List Nat) (hk : key.length = 32) (prev : List Nat)
    (hprev : prev.length = 16) (bs : List (List Nat))
    (hbs : ∀ b ∈ bs, b.length = 16) :
    ∀ c ∈ cbcEncryptBlocks P key prev bs, c.length = 16 := by
  induction bs generalizing prev with
  | nil => simp [cbcEncryptBlocks]
  | cons b bs ih =>
    have hxor : (xorBytes b prev).length = 16 := by
      rw [length_xorBytes, hbs b (by simp), hprev]; simp
    have henc := hP key (xorBytes b prev) hk hxor
    intro c hc
    simp only [cbcEncryptBlocks, List.mem_cons] at hc
    rcases hc with hc | hc
    · subst hc; exact henc.1
    · exact ih _ henc.1 (fun x hx => hbs x (List.mem_cons_of_mem b hx)) c hc

lemma cbcDecryptBlocks_cbcEncryptBlocks (P : CryptoPrims) (hP : GoodCipher P)
    (key : List Nat) (hk : key.length = 32) (prev : List Nat)
    (hprev : prev.length = 16) (bs : List (List Nat))
    (hbs : ∀ b ∈ bs, b.length = 16) :
    cbcDecryptBlocks P key prev (cbcEncryptBlocks P key prev bs) = bs := by
  induction bs generalizing prev with
  | nil => simp [cbcEncryptBlocks, cbcDecryptBlocks]
  | cons b bs ih =>
    have hb : b.length = 16 := hbs b (by simp)
    have hxor : (xorBytes b prev).length = 16 := by
      rw [length_xorBytes, hb, hprev]; simp
    have henc := hP key (xorBytes b prev) hk hxor
    simp only [cbcEncryptBlocks, cbcDecryptBlocks]
    rw [henc.2, xorBytes_cancel b prev (by omega),
      ih _ henc.1 (fun x hx => hbs x (List.mem_cons_of_mem b hx))]

lemma pkcs7pad_ne_nil (d : List Nat) : pkcs7pad d ≠ [] := by
  intro hc
  have := congrArg List.length hc
  simp only [pkcs7pad, List.length_append, List.length_replicate,
    List.length_nil] at this
  omega

lemma cbcEncryptBlocks_length (P : CryptoPrims) (key prev : List Nat)
    (bs : List (List Nat)) :
    (cbcEncryptBlocks P key prev bs).length = bs.length := by
  induction bs generalizing prev with
  | nil => simp [cbcEncryptBlocks]
  | cons b bs ih => simp [cbcEncryptBlocks, ih]

/-- The ciphertext of a padded buffer is a nonzero whole number of
blocks long. -/
lemma cbcEncrypt_pad_length (P : CryptoPrims) (hP : GoodCipher P)
    (key : List Nat) (hk : key.length = 32) (iv : List Nat)
    (hiv : iv.length = 16) (data : List Nat) :
    (cbcEncrypt P key iv (pkcs7pad data)).length % 16 = 0 ∧
    (cbcEncrypt P key iv (pkcs7pad data)).length ≠ 0 := by
  have hblocks : ∀ b ∈ toBlocks (pkcs7pad data), b.length = 16 :=
    toBlocks_len16 _ (pkcs7pad_length_mod data)
  have hct : ∀ c ∈ cbcEncryptBlocks P key iv (toBlocks (pkcs7pad data)),
      c.length = 16 := cbcEncryptBlocks_len16 P hP key hk iv hiv _ hblocks
  have htb : toBlocks (pkcs7pad data)
      = (pkcs7pad data).take 16 :: toBlocks ((pkcs7pad data).drop 16) :=
    toBlocks_ne_nil _ (pkcs7pad_ne_nil data)
  have hlen : (cbcEncrypt P key iv (pkcs7pad data)).length
      = 16 * (toBlocks (pkcs7pad data)).length := by
    show ((cbcEncryptBlocks P key iv
      (toBlocks (pkcs7pad data))).flatten).length = _
    rw [flatten_length_16 _ hct, cbcEncryptBlocks_length]
  have hpos : 0 < (toBlocks (pkcs7pad data)).length := by
    rw [htb]; simp
  constructor
  · rw [hlen]; omega
  · rw [hlen]; omega

/-- The decipher run inverts CBC encryption of a PKCS#7-padded buffer. -/
lemma decipherRun_cbcEncrypt (P : CryptoPrims) (hP : GoodCipher P)
    (key : List Nat) (hk : key.length = 32) (iv : List Nat)
    (hiv : iv.length = 16) (data : List Nat) :
    decipherRun P key iv (cbcEncrypt P key iv (pkcs7pad data)) = .ok data := by
  have hblocks : ∀ b ∈ toBlocks (pkcs7pad data), b.length = 16 :=
    toBlocks_len16 _ (pkcs7pad_length_mod data)
  have hct : ∀ c ∈ cbcEncryptBlocks P key iv (toBlocks (pkcs7pad data)),
      c.length = 16 := cbcEncryptBlocks_len16 P hP key hk iv hiv _ hblocks
  have hlen := cbcEncrypt_pad_length P hP key hk iv hiv data
  have hdec : cbcDecrypt P key iv (cbcEncrypt P key iv (pkcs7pad data))
      = pkcs7pad data := by
    show (cbcDecryptBlocks P key iv (toBlocks (cbcEncryptBlocks P key iv
      (toBlocks (pkcs7pad data))).flatten)).flatten = pkcs7pad data
    rw [toBlocks_flatten _ hct,
      cbcDecryptBlocks_cbcEncryptBlocks P hP key hk iv hiv _ hblocks,
      flatten_toBlocks]
  simp [decipherRun, hiv, hlen.1, hlen.2, hdec, pkcs7unpad_pkcs7pad]

instance {ε α : Type} [DecidableEq ε] [DecidableEq α] :
    DecidableEq (Except ε α) := fun x y =>
  match x, y with
  | .ok a, .ok b =>
    if h : a = b then isTrue (by rw [h]) else isFalse (by simp [h])
  | .ok _, .error _ => isFalse (by simp)
  | .error _, .ok _ => isFalse (by simp)
  | .error a, .error b =>
    if h : a = b then isTrue (by rw [h]) else isFalse (by simp [h])

/-- A small concrete instantiation of the external crypto primitives
(a byte-wise XOR stream keyed by the key's first byte, and a KDF that
spreads the password's first byte), satisfying `GoodCipher` and
`GoodKDF`; it serves to evaluate the theorems on concrete inputs. -/
def toyPrims : CryptoPrims where
  encB := fun k b => b.map (fun x => Nat.xor x (k.headD 0 % 256))
  decB := fun k b => b.map (fun x => Nat.xor x (k.headD 0 % 256))
  pbkdf2 := fun pw _salt _it len => List.replicate len (pw.headD 0 % 256)

lemma toyPrims_goodCipher : GoodCipher toyPrims := by
  intro k b _ hb
  refine ⟨by simp [toyPrims, hb], ?_⟩
  simp only [toyPrims, List.map_map]
  rw [show ((fun x => Nat.xor x (k.headD 0 % 256)) ∘
      fun x => Nat.xor x (k.headD 0 % 256)) = id from
    funext fun x => Nat.xor_cancel_right _ _, List.map_id]

lemma toyPrims_goodKDF : GoodKDF toyPrims := by
  intro pw salt it len
  simp [toyPrims]

/-- Shared round-trip fact: decrypting an envelope produced by
`encryptData` under the same 32-byte key recovers the plaintext. -/
lemma decryptData_encryptData (P : CryptoPrims) (hP : GoodCipher P)
    (key : List Nat) (hk : key.length = 32) (iv : List Nat)
    (hiv : iv.length = 16) (data env : List Nat)
    (henc : encryptData P (mkIPFSClient (some key)) iv data = .ok env) :
    decryptData P (mkIPFSClient (some key)) env = .ok data := by
  have henv : env = iv ++ cbcEncrypt P key iv (pkcs7pad data) := by
    simp [encryptData, mkIPFSClient, hk] at henc
    exact henc.symm
  subst henv
  simp [decryptData, mkIPFSClient, hk, List.take_left' hiv,
    List.drop_left' hiv, decipherRun_cbcEncrypt P hP key hk iv hiv data]

/-! ### The claims -/

/-- C1: Content cipher round-trip — for every plaintext buffer, every
32-byte key (so encryption is available on the client) and every
16-byte IV drawn by `crypto.randomBytes(16)`, decrypting the envelope
produced by `encryptData` under the same key returns exactly the
plaintext, for any block primitive satisfying the AES inverse
property. -/
theorem contentCipher_roundtrip (P : CryptoPrims) (hP : GoodCipher P)
    (key : List Nat) (hk : key.length = 32) (iv : List Nat)
    (hiv : iv.length = 16) (data env : List Nat)
    (henc : encryptData P (mkIPFSClient (some key)) iv data = .ok env) :
    decryptData P (mkIPFSClient (some key)) env = .ok data :=
  decryptData_encryptData P hP key hk iv hiv data env henc

/-- C1 witness: the round trip evaluated at a concrete key, IV and
plaintext with the concrete toy primitives. -/
theorem contentCipher_roundtrip_witness :
    decryptData toyPrims (mkIPFSClient (some (List.replicate 32 7)))
      (List.replicate 16 1 ++ cbcEncrypt toyPrims (List.replicate 32 7)
        (List.replicate 16 1) (pkcs7pad [10, 20, 30])) = .ok [10, 20, 30] :=
  contentCipher_roundtrip toyPrims toyPrims_goodCipher (List.replicate 32 7)
    (by decide) (List.replicate 16 1) (by decide) [10, 20, 30] _ rfl

/-- C5: Key-length invariant — an `IPFSClient` constructed with a key
whose length is not exactly 32 bytes has encryption unavailable, and
both `encryptData` and `decryptData` then fail with the
encryption-unavailable error rather than operating on the data. -/
theorem keyLength_invariant (P : CryptoPrims) (key : List Nat)
    (hk : key.length ≠ 32) :
    (mkIPFSClient (some key)).encryptionAvailable = false ∧
    (∀ iv data, encryptData P (mkIPFSClient (some key)) iv data
      = .error .encryptionUnavailable) ∧
    (∀ env, decryptData P (mkIPFSClient (some key)) env
      = .error .encryptionUnavailable) := by
  have hav : (mkIPFSClient (some key)).encryptionAvailable = false := by
    simp [mkIPFSClient, hk]
  exact ⟨hav, fun iv data => by simp [encryptData, hav],
    fun env => by simp [decryptData, hav]⟩

/-- C5 witness: a client built with a 31-byte key evaluated on concrete
inputs. -/
theorem keyLength_invariant_witness :
    (mkIPFSClient (some (List.replicate 31 0))).encryptionAvailable = false ∧
    encryptData toyPrims (mkIPFSClient (some (List.replicate 31 0)))
      (List.replicate 16 0) [1] = .error .encryptionUnavailable ∧
    decryptData toyPrims (mkIPFSClient (some (List.replicate 31 0))) [5]
      = .error .encryptionUnavailable :=
  ⟨(keyLength_invariant toyPrims (List.replicate 31 0) (by decide)).1,
   (keyLength_invariant toyPrims (List.replicate 31 0) (by decide)).2.1 _ _,
   (keyLength_invariant toyPrims (List.replicate 31 0) (by decide)).2.2 _⟩

/-- C9: Encryption non-determinism and IV uniqueness — two calls to
`encryptData` whose random draws produce distinct IVs yield envelopes
that differ in their first 16 bytes (hence differ), and both envelopes
decrypt back to the plaintext under the same key. -/
theorem encryptData_iv_uniqueness (P : CryptoPrims) (hP : GoodCipher P)
    (key : List Nat) (hk : key.length = 32) (iv1 iv2 : List Nat)
    (h1 : iv1.length = 16) (h2 : iv2.length = 16) (hne : iv1 ≠ iv2)
    (data env1 env2 : List Nat)
    (he1 : encryptData P (mkIPFSClient (some key)) iv1 data = .ok env1)
    (he2 : encryptData P (mkIPFSClient (some key)) iv2 data = .ok env2) :
    env1.take 16 ≠ env2.take 16 ∧ env1 ≠ env2 ∧
    decryptData P (mkIPFSClient (some key)) env1 = .ok data ∧
    decryptData P (mkIPFSClient (some key)) env2 = .ok data := by
  have henv1 : env1 = iv1 ++ cbcEncrypt P key iv1 (pkcs7pad data) := by
    simp [encryptData, mkIPFSClient, hk] at he1
    exact he1.symm
  have henv2 : env2 = iv2 ++ cbcEncrypt P key iv2 (pkcs7pad data) := by
    simp [encryptData, mkIPFSClient, hk] at he2
    exact he2.symm
  have ht1 : env1.take 16 = iv1 := by rw [henv1, List.take_left' h1]
  have ht2 : env2.take 16 = iv2 := by rw [henv2, List.take_left' h2]
  have htake : env1.take 16 ≠ env2.take 16 := by rw [ht1, ht2]; exact hne
  exact ⟨htake, fun hc => htake (by rw [hc]),
    decryptData_encryptData P hP key hk iv1 h1 data env1 he1,
    decryptData_encryptData P hP key hk iv2 h2 data env2 he2⟩

/-- C9 witness: two concrete distinct IVs on the same plaintext and
key. -/
theorem encryptData_iv_uniqueness_witness :
    (List.replicate 16 0 ++ cbcEncrypt toyPrims (List.replicate 32 0)
        (List.replicate 16 0) (pkcs7pad [9])).take 16 ≠
      (List.replicate 16 1 ++ cbcEncrypt toyPrims (List.replicate 32 0)
        (List.replicate 16 1) (pkcs7pad [9])).take 16 ∧
    (List.replicate 16 0 ++ cbcEncrypt toyPrims (List.replicate 32 0)
        (List.replicate 16 0) (pkcs7pad [9])) ≠
      (List.replicate 16 1 ++ cbcEncrypt toyPrims (List.replicate 32 0)
        (List.replicate 16 1) (pkcs7pad [9])) ∧
    decryptData toyPrims (mkIPFSClient (some (List.replicate 32 0)))
      (List.replicate 16 0 ++ cbcEncrypt toyPrims (List.replicate 32 0)
        (List.replicate 16 0) (pkcs7pad [9])) = .ok [9] ∧
    decryptData toyPrims (mkIPFSClient (some (List.replicate 32 0)))
      (List.replicate 16 1 ++ cbcEncrypt toyPrims (List.replicate 32 0)
        (List.replicate 16 1) (pkcs7pad [9])) = .ok [9] :=
  encryptData_iv_uniqueness toyPrims toyPrims_goodCipher
    (List.replicate 32 0) (by decide) (List.replicate 16 0)
    (List.replicate 16 1) (by decide) (by decide) (by decide) [9] _ _ rfl rfl

lemma decipherRun_invalidIV (P : CryptoPrims) (key iv data : List Nat)
    (h : iv.length ≠ 16) : decipherRun P key iv data = .error .invalidIV := by
  simp [decipherRun, h]

lemma decipherRun_wrongBlock (P : CryptoPrims) (key iv data : List Nat)
    (h16 : iv.length = 16) (h : data.length % 16 ≠ 0 ∨ data.length = 0) :
    decipherRun P key iv data = .error .wrongFinalBlockLength := by
  simp only [decipherRun, h16, ne_eq, not_true_eq_false, if_false, reduceIte]
  rw [if_pos h]

lemma decipherRun_badDecrypt (P : CryptoPrims) (key iv data : List Nat)
    (h16 : iv.length = 16) (h : data.length % 16 = 0)
    (hne : data.length ≠ 0)
    (hu : pkcs7unpad (cbcDecrypt P key iv data) = none) :
    decipherRun P key iv data = .error .badDecrypt := by
  simp [decipherRun, h16, h, hne, hu]

lemma decryptData_eq (P : CryptoPrims) (key : List Nat)
    (hk : key.length = 32) (env : List Nat) :
    decryptData P (mkIPFSClient (some key)) env =
      match decipherRun P key (env.take 16) (env.drop 16) with
      | .ok p => .ok p
      | .error e => .error (.decryptionFailed e) := by
  simp [decryptData, mkIPFSClient, hk]

/-- C3 (amended): every internal failure of `decryptData` surfaces
through the single catch-all rethrow as a decryption-failure error, and
a wrong key is indistinguishable from invalid padding (both reduce to
the decipher's `bad decrypt`); but because the rethrown message
interpolates the underlying error (`Decryption failed: ${error}. ...`),
a truncated envelope is caller-distinguishable from those two causes:
fewer than 16 bytes yields the invalid-IV error, while a
non-block-aligned remainder — or an exactly-16-byte envelope, whose
ciphertext is empty so `final()` has no final block — yields the
wrong-final-block-length error. The bad-decrypt case requires a
nonempty whole number of ciphertext blocks. -/
theorem decryptData_failure_modes (P : CryptoPrims) (key : List Nat)
    (hk : key.length = 32) (env : List Nat) :
    (env.length < 16 →
      decryptData P (mkIPFSClient (some key)) env
        = .error (.decryptionFailed .invalidIV)) ∧
    (16 ≤ env.length → ((env.length - 16) % 16 ≠ 0 ∨ env.length = 16) →
      decryptData P (mkIPFSClient (some key)) env
        = .error (.decryptionFailed .wrongFinalBlockLength)) ∧
    (32 ≤ env.length → (env.length - 16) % 16 = 0 →
      pkcs7unpad (cbcDecrypt P key (env.take 16) (env.drop 16)) = none →
      decryptData P (mkIPFSClient (some key)) env
        = .error (.decryptionFailed .badDecrypt)) := by
  refine ⟨fun hshort => ?_, fun hge hmod => ?_, fun hge hmod hu => ?_⟩
  · have hiv : (env.take 16).length ≠ 16 := by
      simp [List.length_take]; omega
    rw [decryptData_eq P key hk, decipherRun_invalidIV P key _ _ hiv]
  · have hiv : (env.take 16).length = 16 := by
      simp [List.length_take]; omega
    have hd : (env.drop 16).length % 16 ≠ 0 ∨ (env.drop 16).length = 0 := by
      rcases hmod with hmod | hmod
      · left; simp [List.length_drop]; omega
      · right; simp [List.length_drop]; omega
    rw [decryptData_eq P key hk, decipherRun_wrongBlock P key _ _ hiv hd]
  · have hiv : (env.take 16).length = 16 := by
      simp [List.length_take]; omega
    have hd : (env.drop 16).length % 16 = 0 := by
      simp [List.length_drop]; omega
    have hne : (env.drop 16).length ≠ 0 := by
      simp [List.length_drop]; omega
    rw [decryptData_eq P key hk,
      decipherRun_badDecrypt P key _ _ hiv hd hne hu]

/-- C3 witness: the failure modes evaluated at a concrete key and a
concrete 3-byte (truncated) envelope. -/
theorem decryptData_failure_modes_witness :
    ([0, 1, 2] : List Nat).length < 16 ∧
    decryptData toyPrims (mkIPFSClient (some (List.replicate 32 0))) [0, 1, 2]
      = .error (.decryptionFailed .invalidIV) :=
  ⟨by decide, (decryptData_failure_modes toyPrims (List.replicate 32 0)
    (by decide) [0, 1, 2]).1 (by decide)⟩

/-- C3 counterexample: the claim that the error identity never reveals
which of the three causes occurred is false — a truncated envelope and
an invalid-padding (or wrong-key) envelope produce errors carrying
different interpolated causes. -/
theorem decryptData_error_reveals_truncation :
    decryptData toyPrims (mkIPFSClient (some (List.replicate 32 0))) [0, 1, 2]
      = .error (.decryptionFailed .invalidIV) ∧
    decryptData toyPrims (mkIPFSClient (some (List.replicate 32 0)))
      (List.replicate 32 0) = .error (.decryptionFailed .badDecrypt) ∧
    (IpfsError.decryptionFailed .invalidIV
      ≠ IpfsError.decryptionFailed .badDecrypt) :=
  ⟨rfl, rfl, by decide⟩

lemma getSeedPhraseFromRecord_encoded (P : CryptoPrims) (data : List Nat)
    (a : Nat) (as : List Nat) :
    getSeedPhraseFromRecord P ⟨data, true⟩ (some (a :: as)) =
      (match decipherRun P (P.pbkdf2 (a :: as) (data.take 16) 100000 32)
          ((data.drop 16).take 16) (data.drop 32) with
        | .ok dec => (.ok dec, [.pbkdf2Derive])
        | .error _ => (.error .decryptionFailed, [.pbkdf2Derive])) := rfl

/-- C4 (amended): `getSeedPhrase` has no length guard — for every stored
encoded value whose decoded payload is shorter than 32 bytes and every
non-empty password, PBKDF2 key derivation still runs, and the call then
fails with the same generic decryption-failure error as a wrong
password (the decipher rejects the short IV slice); no distinct format
error exists. -/
theorem getSeedPhrase_short_payload (P : CryptoPrims) (payload pw : List Nat)
    (hlen : payload.length < 32) (hpw : pw ≠ []) :
    getSeedPhraseFromRecord P ⟨payload, true⟩ (some pw)
      = (.error .decryptionFailed, [.pbkdf2Derive]) := by
  cases pw with
  | nil => exact absurd rfl hpw
  | cons a as =>
    have hiv : ((payload.drop 16).take 16).length ≠ 16 := by
      simp [List.length_take, List.length_drop]
      omega
    rw [getSeedPhraseFromRecord_encoded,
      decipherRun_invalidIV _ _ _ _ hiv]

/-- C4 witness: a 10-byte payload with password byte `1`. -/
theorem getSeedPhrase_short_payload_witness :
    getSeedPhraseFromRecord toyPrims ⟨List.replicate 10 0, true⟩ (some [1])
      = (.error .decryptionFailed, [.pbkdf2Derive]) :=
  getSeedPhrase_short_payload toyPrims (List.replicate 10 0) [1]
    (by decide) (by decide)

/-- C4 counterexample: at the concrete 10-byte payload the claim fails —
the PBKDF2 derivation event did occur before the failure (the claim
says no PBKDF2 computation happens), and the error is the same generic
decryption-failure error as a wrong password, not a distinct format
error. -/
theorem getSeedPhrase_short_payload_counterexample :
    (getSeedPhraseFromRecord toyPrims ⟨List.replicate 10 0, true⟩
        (some [1])).2 = [ConfigEvent.pbkdf2Derive] ∧
    (getSeedPhraseFromRecord toyPrims ⟨List.replicate 10 0, true⟩
        (some [1])).1 = .error .decryptionFailed :=
  ⟨rfl, rfl⟩

/-- C2: Credential cipher round-trip — storing a secret encrypted via
`setSeedPhrase(S, true, W, name)` with fresh 16-byte salt and IV and a
non-empty password, then reading it back via `getSeedPhrase(name, W)`,
returns exactly the secret, for any primitives satisfying the AES
inverse and KDF length properties. -/
theorem credentialCipher_roundtrip (P : CryptoPrims) (hP : GoodCipher P)
    (hK : GoodKDF P) (salt iv : List Nat) (hsalt : salt.length = 16)
    (hiv : iv.length = 16) (pw : List Nat) (hpw : pw ≠ [])
    (S : List Nat) (r : SeedRecord)
    (hset : setSeedPhraseRecord P salt iv S true (some pw) = .ok r) :
    (getSeedPhraseFromRecord P r (some pw)).1 = .ok S := by
  cases pw with
  | nil => exact absurd rfl hpw
  | cons a as =>
    have hr : r = ⟨salt ++ (iv ++ cbcEncrypt P
        (P.pbkdf2 (a :: as) salt 100000 32) iv (pkcs7pad S)), true⟩ := by
      simp [setSeedPhraseRecord] at hset
      exact hset.symm
    subst hr
    have e1 : (salt ++ (iv ++ cbcEncrypt P
        (P.pbkdf2 (a :: as) salt 100000 32) iv (pkcs7pad S))).take 16
        = salt := List.take_left' hsalt
    have e2 : ((salt ++ (iv ++ cbcEncrypt P
        (P.pbkdf2 (a :: as) salt 100000 32) iv (pkcs7pad S))).drop 16).take 16
        = iv := by
      rw [List.drop_left' hsalt, List.take_left' hiv]
    have e3 : (salt ++ (iv ++ cbcEncrypt P
        (P.pbkdf2 (a :: as) salt 100000 32) iv (pkcs7pad S))).drop 32
        = cbcEncrypt P (P.pbkdf2 (a :: as) salt 100000 32) iv
          (pkcs7pad S) := by
      have h32 : (salt ++ iv).length = 32 := by simp [hsalt, hiv]
      rw [← List.append_assoc, List.drop_left' h32]
    rw [getSeedPhraseFromRecord_encoded, e1, e2, e3,
      decipherRun_cbcEncrypt P hP _ (hK (a :: as) salt 100000 32) iv hiv S]

/-- C2 witness: the credential round trip evaluated at concrete salt,
IV, password and secret. -/
theorem credentialCipher_roundtrip_witness :
    (getSeedPhraseFromRecord toyPrims
        ⟨List.replicate 16 2 ++ List.replicate 16 3 ++
          cbcEncrypt toyPrims (toyPrims.pbkdf2 [5] (List.replicate 16 2)
            100000 32) (List.replicate 16 3) (pkcs7pad [65, 66, 67]), true⟩
        (some [5])).1 = .ok [65, 66, 67] :=
  credentialCipher_roundtrip toyPrims toyPrims_goodCipher toyPrims_goodKDF
    (List.replicate 16 2) (List.replicate 16 3) (by decide) (by decide)
    [5] (by decide) [65, 66, 67] _ rfl

/-- C6 (amended): reading back a secret protected under password W1 with
a different password W2 fails with the generic decryption-failure error
whenever the decryption under the W2-derived key yields invalid PKCS#7
padding — the overwhelmingly likely case for a real cipher, and the only
detection the code performs; the code has no authentication tag, so in
the residual case where that padding check passes by coincidence it
returns a wrong plaintext instead of failing. -/
theorem wrongPassword_generic_failure (P : CryptoPrims) (hP : GoodCipher P)
    (hK : GoodKDF P) (salt iv : List Nat) (hsalt : salt.length = 16)
    (hiv : iv.length = 16) (pw1 pw2 S : List Nat) (hpw1 : pw1 ≠ [])
    (hpw2 : pw2 ≠ []) (r : SeedRecord)
    (hset : setSeedPhraseRecord P salt iv S true (some pw1) = .ok r)
    (hbad : pkcs7unpad (cbcDecrypt P (P.pbkdf2 pw2 salt 100000 32) iv
      (cbcEncrypt P (P.pbkdf2 pw1 salt 100000 32) iv (pkcs7pad S))) = none) :
    getSeedPhraseFromRecord P r (some pw2)
      = (.error .decryptionFailed, [.pbkdf2Derive]) := by
  cases pw1 with
  | nil => exact absurd rfl hpw1
  | cons a as =>
    cases pw2 with
    | nil => exact absurd rfl hpw2
    | cons b bs =>
      have hr : r = ⟨salt ++ (iv ++ cbcEncrypt P
          (P.pbkdf2 (a :: as) salt 100000 32) iv (pkcs7pad S)), true⟩ := by
        simp [setSeedPhraseRecord] at hset
        exact hset.symm
      subst hr
      have e1 : (salt ++ (iv ++ cbcEncrypt P
          (P.pbkdf2 (a :: as) salt 100000 32) iv (pkcs7pad S))).take 16
          = salt := List.take_left' hsalt
      have e2 : ((salt ++ (iv ++ cbcEncrypt P
          (P.pbkdf2 (a :: as) salt 100000 32) iv
            (pkcs7pad S))).drop 16).take 16 = iv := by
        rw [List.drop_left' hsalt, List.take_left' hiv]
      have e3 : (salt ++ (iv ++ cbcEncrypt P
          (P.pbkdf2 (a :: as) salt 100000 32) iv (pkcs7pad S))).drop 32
          = cbcEncrypt P (P.pbkdf2 (a :: as) salt 100000 32) iv
            (pkcs7pad S) := by
        have h32 : (salt ++ iv).length = 32 := by simp [hsalt, hiv]
        rw [← List.append_assoc, List.drop_left' h32]
      have hkey1 : (P.pbkdf2 (a :: as) salt 100000 32).length = 32 :=
        hK (a :: as) salt 100000 32
      have hlen := cbcEncrypt_pad_length P hP _ hkey1 iv hiv S
      rw [getSeedPhraseFromRecord_encoded, e1, e2, e3,
        decipherRun_badDecrypt P _ iv _ hiv hlen.1 hlen.2 hbad]

/-- C6 witness: a concrete pair of distinct passwords where the
wrong-password decryption has invalid padding, so the call fails with
the generic error. -/
theorem wrongPassword_generic_failure_witness :
    getSeedPhraseFromRecord toyPrims
        ⟨List.replicate 16 0 ++ List.replicate 16 0 ++
          cbcEncrypt toyPrims (toyPrims.pbkdf2 [2] (List.replicate 16 0)
            100000 32) (List.replicate 16 0)
            (pkcs7pad (List.replicate 14 0 ++ [1])), true⟩ (some [32])
      = (.error .decryptionFailed, [.pbkdf2Derive]) :=
  wrongPassword_generic_failure toyPrims toyPrims_goodCipher toyPrims_goodKDF
    (List.replicate 16 0) (List.replicate 16 0) (by decide) (by decide)
    [2] [32] (List.replicate 14 0 ++ [1]) (by decide) (by decide) _ rfl
    (by decide)

/-- C6 counterexample: with conforming primitives and concrete distinct
non-empty passwords `[2]` and `[1]`, revealing the stored secret with
the wrong password does not fail — the coincidentally valid padding
makes `getSeedPhrase` return a plaintext different from the stored
secret, so the claim as stated is false. -/
theorem wrongPassword_counterexample :
    ([2] : List Nat) ≠ [1] ∧
    setSeedPhraseRecord toyPrims (List.replicate 16 0) (List.replicate 16 0)
        (List.replicate 14 0 ++ [1]) true (some [2])
      = .ok ⟨List.replicate 16 0 ++ List.replicate 16 0 ++
          cbcEncrypt toyPrims (toyPrims.pbkdf2 [2] (List.replicate 16 0)
            100000 32) (List.replicate 16 0)
            (pkcs7pad (List.replicate 14 0 ++ [1])), true⟩ ∧
    (getSeedPhraseFromRecord toyPrims
        ⟨List.replicate 16 0 ++ List.replicate 16 0 ++
          cbcEncrypt toyPrims (toyPrims.pbkdf2 [2] (List.replicate 16 0)
            100000 32) (List.replicate 16 0)
            (pkcs7pad (List.replicate 14 0 ++ [1])), true⟩
        (some [1])).1 = .ok (List.replicate 14 3) ∧
    List.replicate 14 3 ≠ List.replicate 14 0 ++ [1] :=
  ⟨by decide, rfl, rfl, by decide⟩

lemma retryLoop_step {ε α : Type} (op : Nat → Except ε α) (maxRetries : Int)
    (attempt : Int) (lastError : Option ε) (calls : Nat) (waits : List Nat)
    (h : attempt < maxRetries) :
    retryLoop op maxRetries attempt lastError calls waits =
      match op attempt.toNat with
      | .ok v => ⟨.ok v, calls + 1, waits⟩
      | .error e =>
        if attempt = maxRetries - 1 then ⟨.error (some e), calls + 1, waits⟩
        else retryLoop op maxRetries (attempt + 1) (some e) (calls + 1)
          (waits ++ [2 ^ attempt.toNat * 1000]) := by
  rw [retryLoop]
  simp [h]

lemma retryLoop_stop {ε α : Type} (op : Nat → Except ε α) (maxRetries : Int)
    (attempt : Int) (lastError : Option ε) (calls : Nat) (waits : List Nat)
    (h : ¬ attempt < maxRetries) :
    retryLoop op maxRetries attempt lastError calls waits
      = ⟨.error lastError, calls, waits⟩ := by
  rw [retryLoop]
  simp [h]

/-- C7: Retry executor exhaustion — an operation failing on every
attempt, run with `maxRetries = 3`, is invoked exactly three times,
rejects with exactly the third attempt's error, and performs only the
two inter-attempt waits (no wait after the final failure). -/
theorem retryWithBackoff_exhaustion (ε α : Type) (e : Nat → ε) :
    retryWithBackoff (fun i => (.error (e i) : Except ε α)) 3
      = ⟨.error (some (e 2)), 3, [1000, 2000]⟩ := by
  rw [retryWithBackoff, retryLoop_step _ _ _ _ _ _ (by norm_num)]
  norm_num
  rw [retryLoop_step _ _ _ _ _ _ (by norm_num)]
  norm_num
  rw [retryLoop_step _ _ _ _ _ _ (by norm_num)]
  norm_num
  rfl

/-- C7 witness: the exhaustion behaviour at a concrete error
sequence. -/
theorem retryWithBackoff_exhaustion_witness :
    retryWithBackoff (fun i => (.error i : Except Nat Nat)) 3
      = ⟨.error (some 2), 3, [1000, 2000]⟩ :=
  retryWithBackoff_exhaustion Nat Nat (fun i => i)

/-- C8: Retry executor backoff schedule — an operation failing on its
first two invocations and succeeding on the third, run with
`maxRetries = 3`, is invoked exactly three times, resolves with the
success value, and waits 2^0 and then 2^1 time units (here 1000 ms and
2000 ms) before the second and third invocations. -/
theorem retryWithBackoff_backoff_schedule (ε α : Type) (e0 e1 : ε) (v : α) :
    retryWithBackoff
      (fun i => if i = 0 then .error e0 else if i = 1 then .error e1
        else .ok v) 3
      = ⟨.ok v, 3, [1000, 2000]⟩ := by
  rw [retryWithBackoff, retryLoop_step _ _ _ _ _ _ (by norm_num)]
  norm_num
  rw [retryLoop_step _ _ _ _ _ _ (by norm_num)]
  norm_num
  rw [retryLoop_step _ _ _ _ _ _ (by norm_num)]
  norm_num
  rfl

/-- C8 witness: the backoff schedule at concrete errors and success
value. -/
theorem retryWithBackoff_backoff_schedule_witness :
    retryWithBackoff
      (fun i => if i = 0 then .error 10 else if i = 1 then .error 11
        else (.ok 42 : Except Nat Nat)) 3
      = ⟨.ok 42, 3, [1000, 2000]⟩ :=
  retryWithBackoff_backoff_schedule Nat Nat 10 11 42

/-- C10: Implicit edge case — with a non-positive `maxRetries` the loop
body is never entered, so the operation is never invoked and the
promise rejects with `lastError`, which is still `null`. -/
theorem retryWithBackoff_nonpositive (ε α : Type) (op : Nat → Except ε α)
    (m : Int) (hm : m ≤ 0) :
    retryWithBackoff op m = ⟨.error none, 0, []⟩ := by
  rw [retryWithBackoff, retryLoop_stop _ _ _ _ _ _ (by omega)]

/-- C10 witness: `maxRetries = 0` and `maxRetries = -2` at a concrete
operation. -/
theorem retryWithBackoff_nonpositive_witness :
    retryWithBackoff (fun _ => (.error 7 : Except Nat Nat)) 0
        = ⟨.error none, 0, []⟩ ∧
    retryWithBackoff (fun _ => (.error 7 : Except Nat Nat)) (-2)
        = ⟨.error none, 0, []⟩ :=
  ⟨retryWithBackoff_nonpositive Nat Nat _ 0 (by norm_num),
   retryWithBackoff_nonpositive Nat Nat _ (-2) (by norm_num)⟩

end Hippius
